/- Verification of the congenial-enigma LP-file parser against its
   natural-language specification.  The Rust sources are shallowly embedded:
   strings become lists of characters (exact for the single-byte inputs all
   theorems use), fallible parsers return Option, and the one function that
   can abort the process is modelled with Except where the error constructor
   marks the abort.  Parts of the repository that are referenced but whose
   source files are absent (the sense, objective and constraint sub-parsers)
   are modelled from the specification text; their doc comments say so. -/
import Mathlib

namespace LP

/-- Character sequences stand in for Rust string slices. -/
abbrev Str := List Char

/-- Lowercases a character sequence; models str::to_lowercase / char
case-folding on the ASCII inputs used throughout. -/
def lower (s : Str) : Str := s.map Char.toLower

/-- Scans indices i, i+1, ... for at most fuel steps and returns the first
index satisfying p.  Models the index loop shared by take_until_cased
(src/src/lib.rs:131-137) and take_until_no_case
(src/src/nom/lp_problem.rs:58-64). -/
def scanIdx (p : Nat → Bool) : Nat → Nat → Option Nat
  | _, 0 => none
  | i, fuel + 1 => if p i then some i else scanIdx p (i + 1) fuel

/-- Case-insensitive match of tag as the window of input starting at
position i (the loop-body comparison window.to_lowercase() == tag_lower). -/
def matchTagAt (tag input : Str) (i : Nat) : Bool :=
  decide (i + tag.length ≤ input.length) &&
    decide (lower ((input.drop i).take tag.length) = lower tag)

/-- Index of the first case-insensitive occurrence of tag in input; the
loop runs while index <= chars.len() - tag.len(), i.e. over
input.length - tag.length + 1 candidate positions. -/
def findCasedIdx (tag input : Str) : Option Nat :=
  scanIdx (matchTagAt tag input) 0 (input.length - tag.length + 1)

/-- take_until_cased (src/src/lib.rs:121-141): searches for tag ignoring
case; on success returns (remainder from the match, part before the match).
Inputs shorter than the tag are rejected up front by the guard at
lib.rs:127-129. -/
def take_until_cased (tag input : Str) : Option (Str × Str) :=
  if input.length < tag.length then none
  else
    match findCasedIdx tag input with
    | some i => some (input.drop i, input.take i)
    | none => none

/-- take_until_parser (src/src/lib.rs:145-151), renamed for Lean: folds the
tag list with an Err accumulator, so the result is the first tag in list
order whose take_until_cased succeeds anywhere in the input. -/
def take_until_tags (tags : List Str) (input : Str) : Option (Str × Str) :=
  match tags with
  | [] => none
  | t :: ts =>
    match take_until_cased t input with
    | some r => some r
    | none => take_until_tags ts input

/-- Modelled from the spec: take_until_any_keyword of spec section 4.A —
"advance until the earliest position at which any one of them matches
case-insensitively; return the slice before it and the remainder starting
at the match", with the first-listed keyword winning ties. -/
def spec_take_until_any_keyword (tags : List Str) (input : Str) : Option (Str × Str) :=
  match scanIdx (fun i => tags.any (fun t => matchTagAt t input i)) 0 (input.length + 1) with
  | some i => some (input.drop i, input.take i)
  | none => none

/-- take_until_no_case (src/src/nom/lp_problem.rs:52-68).  Unlike
take_until_cased it has no length guard: when the input is shorter than the
tag, chars.len() - tag.len() underflows (a panic in debug builds) and the
window slice chars[0..tag.len()] is out of bounds (a panic in release
builds), so the call aborts either way; Except.error marks that abort.
Except.ok none is the ordinary nom TakeUntil error. -/
def take_until_no_case (tag input : Str) : Except Unit (Option (Str × Str)) :=
  if input.length < tag.length then Except.error ()
  else
    Except.ok (match findCasedIdx tag input with
      | some i => some (input.drop i, input.take i)
      | none => none)

/-- nom tag_no_case: ASCII case-insensitive literal match at the start of
the input, returning (remaining, matched slice). -/
def tag_no_case (t input : Str) : Option (Str × Str) :=
  if lower (input.take t.length) = lower t then
    some (input.drop t.length, input.take t.length)
  else none

/-- is_binary_section (src/src/lib.rs:155-157): alt over binaries, binary,
bin in that order. -/
def is_binary_section (input : Str) : Option (Str × Str) :=
  match tag_no_case "binaries".toList input with
  | some r => some r
  | none =>
    match tag_no_case "binary".toList input with
    | some r => some r
    | none => tag_no_case "bin".toList input

/-- is_bounds_section (src/src/lib.rs:161-163): alt over bounds, bound. -/
def is_bounds_section (input : Str) : Option (Str × Str) :=
  match tag_no_case "bounds".toList input with
  | some r => some r
  | none => tag_no_case "bound".toList input

/-- is_generals_section (src/src/lib.rs:167-169): alt over generals,
general, gen. -/
def is_generals_section (input : Str) : Option (Str × Str) :=
  match tag_no_case "generals".toList input with
  | some r => some r
  | none =>
    match tag_no_case "general".toList input with
    | some r => some r
    | none => tag_no_case "gen".toList input

/-- is_integers_section (src/src/lib.rs:173-175): alt over integers,
integer. -/
def is_integers_section (input : Str) : Option (Str × Str) :=
  match tag_no_case "integers".toList input with
  | some r => some r
  | none => tag_no_case "integer".toList input

/-- is_semi_section (src/src/lib.rs:179-181): alt over semis, semi. -/
def is_semi_section (input : Str) : Option (Str × Str) :=
  match tag_no_case "semis".toList input with
  | some r => some r
  | none => tag_no_case "semi".toList input

/-- is_sos_section (src/src/lib.rs:185-187). -/
def is_sos_section (input : Str) : Option (Str × Str) :=
  tag_no_case "sos".toList input

/-- CONSTRAINT_HEADERS (src/src/lib.rs:55). -/
def CONSTRAINT_HEADERS : List Str :=
  ["subject to".toList, "such that".toList, "s.t.".toList, "st:".toList, "st".toList]

/-- ALL_BOUND_HEADERS (src/src/lib.rs:58-73). -/
def ALL_BOUND_HEADERS : List Str :=
  ["bounds".toList, "bound".toList, "generals".toList, "general".toList, "gen".toList,
   "integers".toList, "integer".toList, "binaries".toList, "binary".toList, "bin".toList,
   "semi-continuous".toList, "semis".toList, "semi".toList, "end".toList]

/-- VALID_LP_FILE_CHARS (src/src/lib.rs:97). -/
def validLPChars : List Char :=
  ['!', '#', '$', '%', '&', '(', ')', '_', ',', '.', ';', '?', '@', '\\', '\x7b', '\x7d', '~', '\'']

/-- nom tag: exact literal match at the start of the input, returning
(remaining, matched slice). -/
def tagP (t input : Str) : Option (Str × Str) :=
  if input.take t.length = t then some (input.drop t.length, t) else none

/-- Exact match of t as the window of input starting at position i. -/
def exactAt (t input : Str) (i : Nat) : Bool :=
  decide (i + t.length ≤ input.length) && decide ((input.drop i).take t.length = t)

/-- nom take_until: splits at the first exact occurrence of t, returning
(remainder from the match, part before); errors when t does not occur. -/
def takeUntilExact (t input : Str) : Option (Str × Str) :=
  if input.length < t.length then none
  else
    match scanIdx (exactAt t input) 0 (input.length - t.length + 1) with
    | some i => some (input.drop i, input.take i)
    | none => none

/-- nom character::complete::not_line_ending: consumes up to (excluding)
the first line terminator; a carriage return not followed by a newline is
an error; consumes everything when no terminator occurs. -/
def notLineEnding : Str → Option (Str × Str)
  | [] => some ([], [])
  | c :: rest =>
    if c = '\n' then some (c :: rest, [])
    else if c = '\r' then
      if rest.head? = some '\n' then some (c :: rest, []) else none
    else (notLineEnding rest).map (fun r => (r.1, c :: r.2))

/-- nom character::complete::line_ending: consumes a newline or a carriage
return followed by a newline. -/
def lineEnding : Str → Option (Str × Str)
  | '\n' :: rest => some (rest, ['\n'])
  | '\r' :: '\n' :: rest => some (rest, ['\r', '\n'])
  | _ => none

/-- Whitespace recognized by nom multispace0. -/
def isWS (c : Char) : Bool := c = ' ' || c = '\t' || c = '\n' || c = '\r'

/-- nom character::complete::multispace0: consumes any run of spaces, tabs
and line terminators; never fails. -/
def multispace0 (input : Str) : Str × Str :=
  (input.dropWhile isWS, input.takeWhile isWS)

/-- Continuation of parse_single_comment after a block-comment opener
(src/src/nom/decoder/problem_name.rs:15-18 and
src/src/parsers/problem_name.rs:37-40): content runs until the literal
star-backslash terminator, which is then consumed together with trailing
whitespace. -/
def parse_block_rest (i1 : Str) : Option (Str × Str) :=
  match takeUntilExact "*\\".toList i1 with
  | none => none
  | some r2 =>
    match tagP "*\\".toList r2.1 with
    | none => none
    | some r3 => some ((multispace0 r3.1).1, r2.2)

/-- parse_single_comment (src/src/nom/decoder/problem_name.rs:12-28, the
same function appears at src/src/parsers/problem_name.rs:34-50): an alt of
the three comment openers, then for block openers content up to the
terminator, and for the line opener content up to a mandatory line
ending. -/
def parse_single_comment (input : Str) : Option (Str × Str) :=
  match tagP "\\\\*".toList input with
  | some r1 => parse_block_rest r1.1
  | none =>
    match tagP "\\*".toList input with
    | some r1 => parse_block_rest r1.1
    | none =>
      match tagP "\\".toList input with
      | none => none
      | some r1 =>
        match notLineEnding r1.1 with
        | none => none
        | some r2 =>
          match lineEnding r2.1 with
          | none => none
          | some r3 => some (r3.1, r2.2)

/-- nom many0 of parse_single_comment, with explicit fuel; every success
of the inner parser consumes at least the opener character, so fuel
of input length + 1 can never run out. -/
def many0Comments : Nat → Str → Str × List Str
  | 0, input => (input, [])
  | fuel + 1, input =>
    match parse_single_comment input with
    | none => (input, [])
    | some r =>
      ((many0Comments fuel r.1).1, r.2 :: (many0Comments fuel r.1).2)

/-- parse_comments (src/src/nom/decoder/problem_name.rs:31-35): collects
the run of leading comments and keeps only the last one. -/
def parse_comments (input : Str) : Str × Option Str :=
  ((many0Comments (input.length + 1) input).1,
    (many0Comments (input.length + 1) input).2.getLast?)

/-- parse_problem_name (src/src/parsers/problem_name.rs:64-68): identical
to parse_comments up to the Cow wrapper, which is the identity on
content. -/
def parse_problem_name (input : Str) : Str × Option Str :=
  parse_comments input

/-- Optimization sense (spec section 3; the nom model source file is not
in the repository snapshot). -/
inductive Sense where
  | Minimize
  | Maximize
deriving DecidableEq

/-- Comparison operator of a constraint (spec 4.F:  less-equal,
greater-equal, equal after collapsing the spelling variants). -/
inductive CmpOp where
  | le
  | ge
  | eq
deriving DecidableEq

/-- A signed numeric literal.  The numeric value is kept as the literal
text together with its sign; no claim under proof inspects the
floating-point value, so literal text is a faithful stand-in. -/
structure NumLit where
  neg : Bool
  lit : Str
deriving DecidableEq

/-- Coefficient (spec section 3): a variable name and its signed value. -/
structure Coefficient where
  name : Str
  value : NumLit
deriving DecidableEq

/-- Objective (spec section 3): a name and its ordered coefficients. -/
structure Objective where
  name : Str
  coefficients : List Coefficient
deriving DecidableEq

/-- Constraint (spec 4.F): standard, ranged, or indicator shape.  The
indicator's inner standard constraint is stored unfolded. -/
inductive Constraint where
  | std (name : Str) (coefficients : List Coefficient) (op : CmpOp) (rhs : NumLit)
  | ranged (name : Str) (coefficients : List Coefficient) (lowB : NumLit) (upB : NumLit)
  | indicator (name : Str) (indVar : Str) (indVal : Nat)
      (innerCoefficients : List Coefficient) (innerOp : CmpOp) (innerRhs : NumLit)
deriving DecidableEq

/-- Variable record.  The nom model source file is absent from the
snapshot; only the name participates in any claim, so the record is the
name alone (the default type and bounds of spec section 3 carry no
information the claims consult). -/
structure Variable where
  name : Str
deriving DecidableEq

/-- Maps are association lists whose earlier bindings win, matching
HashMap lookup after the inserts the parser performs; only key membership
is consulted by the claims. -/
abbrev StrMap (α : Type) := List (Str × α)

/-- Key set of a map. -/
def keyList {α : Type} (m : StrMap α) : List Str := m.map (fun kv => kv.1)

/-- HashMap::extend of the constraint variables into the objective
variables (src/src/nom/lp_problem.rs:88): added entries overwrite, so they
are placed in front. -/
def extendMap {α : Type} (base added : StrMap α) : StrMap α := added ++ base

/-- Registers every listed name as a variable with defaults (spec 4.E/4.F:
"every mentioned variable registered with defaults"). -/
def varsFromNames (ns : List Str) : StrMap Variable := ns.map (fun n => (n, ⟨n⟩))

/-- Variable names mentioned by a coefficient list. -/
def coeffNames (cs : List Coefficient) : List Str := cs.map (fun c => c.name)

/-- Variable names mentioned anywhere in an objective map. -/
def objectiveVarNames (m : StrMap Objective) : List Str :=
  (m.map (fun kv => kv.2)).flatMap (fun o => coeffNames o.coefficients)

/-- Variable names mentioned by one constraint, indicator variable and
inner constraint included. -/
def constraintMention : Constraint → List Str
  | .std _ cs _ _ => coeffNames cs
  | .ranged _ cs _ _ => coeffNames cs
  | .indicator _ v _ cs _ _ => v :: coeffNames cs

/-- Variable names mentioned anywhere in a constraint map. -/
def constraintVarNames (m : StrMap Constraint) : List Str :=
  (m.map (fun kv => kv.2)).flatMap constraintMention

/-- LPProblem (src/src/nom/lp_problem.rs:18-24).  The variables field is
called vars here because its Rust name is a reserved word in Lean. -/
structure LPProblem where
  name : Option Str
  sense : Sense
  objectives : StrMap Objective
  constraints : StrMap Constraint
  vars : StrMap Variable
deriving DecidableEq

/-- Outcome of LPProblem::try_from: ok, an ordinary nom error, or a
process abort (integer underflow / out-of-bounds slice). -/
inductive TFErr where
  | failed
  | panicked
deriving DecidableEq

/-- Identifier head characters (spec section 3: letters or the valid
symbol set, never a digit). -/
def isIdentStart (c : Char) : Bool := c.isAlpha || validLPChars.contains c

/-- Identifier continuation characters (letters, digits, valid symbols). -/
def isIdentChar (c : Char) : Bool := c.isAlphanum || validLPChars.contains c

/-- Modelled from the spec: the number-literal scanner of spec 4.A —
digits with an optional fractional part and an optional signed exponent.
Returns the literal text and the rest of the input. -/
def scanNumLit (input : Str) : Str × Str :=
  let ds := input.takeWhile (fun c => c.isDigit || c = '.')
  let r1 := input.drop ds.length
  match r1 with
  | c :: rest2 =>
    if c = 'e' || c = 'E' then
      let sgn : Str :=
        match rest2.head? with
        | some '+' => ['+']
        | some '-' => ['-']
        | _ => []
      let r3 := rest2.drop sgn.length
      let ed := r3.takeWhile (fun d => d.isDigit)
      if ed.isEmpty then (ds, r1) else (ds ++ c :: (sgn ++ ed), r3.drop ed.length)
    else (ds, r1)
  | [] => (ds, [])

/-- Tokens of the objective / constraint regions (spec 4.A lexical
primitives). -/
inductive Tok where
  | colon
  | plus
  | minus
  | arrow
  | num (lit : Str)
  | ident (s : Str)
  | cmp (op : CmpOp)
deriving DecidableEq

/-- Modelled from the spec: the layered scanner of spec 4.A for the
expression regions — whitespace-insensitive, sign tokens, comparison
operators with their spelling variants collapsed (spec 4.F), number
literals, identifiers over the valid character set, and the indicator
arrow. -/
def tokenize : Nat → Str → Option (List Tok)
  | 0, _ => none
  | _ + 1, [] => some []
  | fuel + 1, c :: rest =>
    if isWS c then tokenize fuel rest
    else if c = ':' then (tokenize fuel rest).map (fun ts => Tok.colon :: ts)
    else if c = '+' then (tokenize fuel rest).map (fun ts => Tok.plus :: ts)
    else if c = '-' then
      match rest with
      | '>' :: rest2 => (tokenize fuel rest2).map (fun ts => Tok.arrow :: ts)
      | _ => (tokenize fuel rest).map (fun ts => Tok.minus :: ts)
    else if c = '<' then
      match rest with
      | '=' :: rest2 => (tokenize fuel rest2).map (fun ts => Tok.cmp CmpOp.le :: ts)
      | _ => (tokenize fuel rest).map (fun ts => Tok.cmp CmpOp.le :: ts)
    else if c = '>' then
      match rest with
      | '=' :: rest2 => (tokenize fuel rest2).map (fun ts => Tok.cmp CmpOp.ge :: ts)
      | _ => (tokenize fuel rest).map (fun ts => Tok.cmp CmpOp.ge :: ts)
    else if c = '=' then
      match rest with
      | '=' :: rest2 => (tokenize fuel rest2).map (fun ts => Tok.cmp CmpOp.eq :: ts)
      | '<' :: rest2 => (tokenize fuel rest2).map (fun ts => Tok.cmp CmpOp.le :: ts)
      | '>' :: rest2 => (tokenize fuel rest2).map (fun ts => Tok.cmp CmpOp.ge :: ts)
      | _ => (tokenize fuel rest).map (fun ts => Tok.cmp CmpOp.eq :: ts)
    else if c.isDigit then
      let nl := scanNumLit (c :: rest)
      (tokenize fuel nl.2).map (fun ts => Tok.num nl.1 :: ts)
    else if isIdentStart c then
      let idt := rest.takeWhile isIdentChar
      (tokenize fuel (rest.drop idt.length)).map (fun ts => Tok.ident (c :: idt) :: ts)
    else none

/-- Modelled from the spec: one signed term after its sign has been read
(spec 4.E) — explicit coefficient and variable, a lone constant attached
as a pseudo-coefficient with the empty variable name, or a bare variable
with implicit coefficient 1. -/
def parseTermAfterSign (neg : Bool) : List Tok → Option (Coefficient × List Tok)
  | Tok.num l :: Tok.ident v :: rest => some (⟨v, ⟨neg, l⟩⟩, rest)
  | Tok.num l :: rest => some (⟨[], ⟨neg, l⟩⟩, rest)
  | Tok.ident v :: rest => some (⟨v, ⟨neg, ['1']⟩⟩, rest)
  | _ => none

/-- Modelled from the spec: a linear expression (spec 4.E) — the leading
sign of the first term is optional, every later term needs an explicit
sign; the expression ends at the first token that cannot continue it. -/
def parseTerms : Nat → List Tok → Bool → Option (List Coefficient × List Tok)
  | 0, _, _ => none
  | fuel + 1, toks, first =>
    match toks with
    | Tok.plus :: rest =>
      match parseTermAfterSign false rest with
      | none => none
      | some cr =>
        match parseTerms fuel cr.2 false with
        | none => none
        | some p => some (cr.1 :: p.1, p.2)
    | Tok.minus :: rest =>
      match parseTermAfterSign true rest with
      | none => none
      | some cr =>
        match parseTerms fuel cr.2 false with
        | none => none
        | some p => some (cr.1 :: p.1, p.2)
    | _ =>
      if first then
        match parseTermAfterSign false toks with
        | none => some ([], toks)
        | some cr =>
          match parseTerms fuel cr.2 false with
          | none => none
          | some p => some (cr.1 :: p.1, p.2)
      else some ([], toks)

/-- Modelled from the spec: the objective list of spec 4.E — a sequence
of name-colon-expression groups, a new objective beginning exactly when a
name-colon pattern appears. -/
def parseObjList : Nat → List Tok → Option (List Objective)
  | 0, _ => none
  | _ + 1, [] => some []
  | fuel + 1, Tok.ident n :: Tok.colon :: rest =>
    match parseTerms (rest.length + 1) rest true with
    | none => none
    | some p =>
      match parseObjList fuel p.2 with
      | none => none
      | some os => some (⟨n, p.1⟩ :: os)
  | _ + 1, _ => none

/-- True when a name occurs twice. -/
def hasDup : List Str → Bool
  | [] => false
  | x :: xs => xs.contains x || hasDup xs

/-- Modelled from the spec: parse_objectives (spec 4.E output contract) —
the objective map plus a provisional variable set in which every mentioned
variable is registered with defaults; duplicate objective names fail. -/
def parse_objectives (region : Str) : Option (StrMap Objective × StrMap Variable) :=
  match tokenize (region.length + 1) region with
  | none => none
  | some toks =>
    match parseObjList (toks.length + 1) toks with
    | none => none
    | some objs =>
      if hasDup (objs.map (fun o => o.name)) then none
      else
        let m : StrMap Objective := objs.map (fun o => (o.name, o))
        some (m, varsFromNames (objectiveVarNames m))

/-- Name under which a constraint is keyed. -/
def conName : Constraint → Str
  | .std n _ _ _ => n
  | .ranged n _ _ _ => n
  | .indicator n _ _ _ _ _ => n

/-- Right-hand side: a number literal with an optional sign. -/
def parseRHS : List Tok → Option (NumLit × List Tok)
  | Tok.num l :: rest => some (⟨false, l⟩, rest)
  | Tok.minus :: Tok.num l :: rest => some (⟨true, l⟩, rest)
  | Tok.plus :: Tok.num l :: rest => some (⟨false, l⟩, rest)
  | _ => none

/-- Synthesized constraint name c_index (spec 4.F). -/
def synthName (i : Nat) : Str := 'c' :: '_' :: Nat.toDigits 10 i

/-- Modelled from the spec: the constraint list of spec 4.F — entries with
an optional label, dispatched to the ranged shape (number and comparison
first), the indicator shape (variable, equals, 0 or 1, arrow), or the
standard shape (expression, comparison, finite right-hand side; a missing
right-hand side fails). -/
def parseConList : Nat → Nat → List Tok → Option (List Constraint)
  | 0, _, _ => none
  | _ + 1, _, [] => some []
  | fuel + 1, idx, toks =>
    let lab : Option Str × List Tok :=
      match toks with
      | Tok.ident n :: Tok.colon :: r => (some n, r)
      | _ => (none, toks)
    let cname := lab.1.getD (synthName idx)
    match lab.2 with
    | Tok.num lo :: Tok.cmp CmpOp.le :: r1 =>
      match parseTerms (r1.length + 1) r1 true with
      | none => none
      | some p =>
        match p.2 with
        | Tok.cmp CmpOp.le :: Tok.num hi :: r2 =>
          match parseConList fuel (idx + 1) r2 with
          | none => none
          | some cs => some (.ranged cname p.1 ⟨false, lo⟩ ⟨false, hi⟩ :: cs)
        | _ => none
    | Tok.ident v :: Tok.cmp CmpOp.eq :: Tok.num b :: Tok.arrow :: r1 =>
      if b = ['0'] || b = ['1'] then
        match parseTerms (r1.length + 1) r1 true with
        | none => none
        | some p =>
          match p.2 with
          | Tok.cmp op :: r2 =>
            match parseRHS r2 with
            | none => none
            | some q =>
              match parseConList fuel (idx + 1) q.2 with
              | none => none
              | some cs =>
                some (.indicator cname v (if b = ['1'] then 1 else 0) p.1 op q.1 :: cs)
          | _ => none
      else none
    | _ =>
      match parseTerms (lab.2.length + 1) lab.2 true with
      | none => none
      | some p =>
        match p.2 with
        | Tok.cmp op :: r2 =>
          match parseRHS r2 with
          | none => none
          | some q =>
            match parseConList fuel (idx + 1) q.2 with
            | none => none
            | some cs => some (.std cname p.1 op q.1 :: cs)
        | _ => none

/-- Modelled from the spec: parse_constraints — the constraint region runs
from the end of the constraint header up to the first bounds-like header
or the end marker (spec 4.F, with the header list ALL_BOUND_HEADERS that
src/src/lib.rs:58-73 declares for this purpose); the parsed constraints
come with a variable set registering every mentioned variable.  Returns
(remaining input from the header, (constraint map, variable map)). -/
def parse_constraints (input : Str) : Option (Str × (StrMap Constraint × StrMap Variable)) :=
  let split : Str × Str :=
    match spec_take_until_any_keyword ALL_BOUND_HEADERS input with
    | some r => (r.2, r.1)
    | none => (input, [])
  match tokenize (split.1.length + 1) split.1 with
  | none => none
  | some toks =>
    match parseConList (toks.length + 1) 1 toks with
    | none => none
    | some cons =>
      if hasDup (cons.map conName) then none
      else
        let m : StrMap Constraint := cons.map (fun c => (conName c, c))
        some (split.2, (m, varsFromNames (constraintVarNames m)))

/-- Modelled from the spec: parse_sense (spec 4.D) — after optional
whitespace the next whitespace-delimited keyword must be a minimize or
maximize spelling, case-insensitively; the keyword and trailing whitespace
are consumed, anything else is the missing-sense failure. -/
def parse_sense (input : Str) : Option (Str × Sense) :=
  let i1 := (multispace0 input).1
  let w := i1.takeWhile (fun c => !(isWS c))
  let rest := i1.drop w.length
  let lw := lower w
  if lw = "minimize".toList || lw = "min".toList || lw = "minimise".toList then
    some ((multispace0 rest).1, Sense.Minimize)
  else if lw = "maximize".toList || lw = "max".toList || lw = "maximise".toList then
    some ((multispace0 rest).1, Sense.Maximize)
  else none

/-- First tag of the list matching at the start of the input. -/
def firstHeaderTag : List Str → Str → Option (Str × Str)
  | [], _ => none
  | t :: ts, input =>
    match tag_no_case t input with
    | some r => some r
    | none => firstHeaderTag ts input

/-- Modelled from the spec: parse_constraint_header — recognizes one of
the constraint-section spellings of CONSTRAINT_HEADERS (src/src/lib.rs:55)
at the start of the input, longer spellings first, then consumes trailing
whitespace and any immediate colon (spec 4.B). -/
def parse_constraint_header (input : Str) : Option (Str × Str) :=
  match firstHeaderTag CONSTRAINT_HEADERS input with
  | none => none
  | some r =>
    let a := (multispace0 r.1).1
    let b := if a.head? = some ':' then a.drop 1 else a
    some ((multispace0 b).1, r.2)

/-- The alt over the four take_until_no_case searches that
LPProblem::try_from uses to locate the constraint section
(src/src/nom/lp_problem.rs:79): the spellings subject to, such that,
s.t. and st: are tried in that order; a panic in any attempt aborts the
whole alternative. -/
def objSectionSplit (input : Str) : Except Unit (Option (Str × Str)) :=
  match take_until_no_case "subject to".toList input with
  | .error e => .error e
  | .ok (some r) => .ok (some r)
  | .ok none =>
    match take_until_no_case "such that".toList input with
    | .error e => .error e
    | .ok (some r) => .ok (some r)
    | .ok none =>
      match take_until_no_case "s.t.".toList input with
      | .error e => .error e
      | .ok (some r) => .ok (some r)
      | .ok none => take_until_no_case "st:".toList input

/-- LPProblem::try_from (src/src/nom/lp_problem.rs:70-95): comments and
problem name, sense, locate the constraint section, consume its header,
parse objectives from the section before it and constraints from the
input after it, then assemble — the variable map is the objective
variables extended with the constraint variables, the remaining input
after the constraint region is dropped, and nothing further (no bounds,
typed-variable, SOS or end handling) is consulted. -/
def tryFrom (input : Str) : Except TFErr LPProblem :=
  let pc := parse_comments input
  match parse_sense pc.1 with
  | none => .error .failed
  | some sr =>
    match objSectionSplit sr.1 with
    | .error _ => .error .panicked
    | .ok none => .error .failed
    | .ok (some split) =>
      match parse_constraint_header split.1 with
      | none => .error .failed
      | some hr =>
        match parse_objectives split.2 with
        | none => .error .failed
        | some objr =>
          match parse_constraints hr.1 with
          | none => .error .failed
          | some conr =>
            .ok ⟨pc.2, sr.2, objr.1, conr.2.1, extendMap objr.2 conr.2.2⟩

/-- Success test for a try_from outcome. -/
def exOk : Except TFErr LPProblem → Bool
  | .ok _ => true
  | .error _ => false

/-- An otherwise-valid LP input with no end marker anywhere. -/
def cexNoEnd : Str := "minimize\nobj: x + y\nsubject to:\nc1: x + y <= 5\n".toList

/-- An LP input whose generals section declares the variable z, which
appears nowhere else. -/
def cexGenerals : Str := "minimize\nobj: x\nsubject to\nc1: x <= 1\ngenerals\nz\nend".toList

/-- Constraint-section spelling samples, one per accepted spelling plus
the bare st spelling. -/
def inSubjUpper : Str := "minimize\nobj: x\nSUBJECT TO\nc1: x <= 1\nend".toList

/-- Same input with the such-that spelling. -/
def inSuchThat : Str := "minimize\nobj: x\nsuch that\nc1: x <= 1\nend".toList

/-- Same input with the dotted abbreviation spelling. -/
def inSDotT : Str := "minimize\nobj: x\ns.t.\nc1: x <= 1\nend".toList

/-- Same input with the st-colon spelling. -/
def inStColon : Str := "minimize\nobj: x\nst:\nc1: x <= 1\nend".toList

/-- Same input with the bare st spelling. -/
def inStBare : Str := "minimize\nobj: x\nst\nc1: x <= 1\nend".toList

/-- Concrete scenario 6 of spec section 8: an unterminated block
comment. -/
def scenarioSix : Str := "\\* oops\nMinimize\n obj: x\nsubject to\n c: x <= 1\nEnd".toList

/-- The empty problem, used only as a getD default. -/
def emptyP : LPProblem := ⟨none, Sense.Minimize, [], [], []⟩

/-- The problem assembled from cexNoEnd. -/
def pNoEnd : LPProblem := (tryFrom cexNoEnd).toOption.getD emptyP

/-- Renders a list of comment bodies as consecutive line comments. -/
def renderLineComments (bs : List Str) : Str :=
  bs.flatMap (fun b => '\\' :: (b ++ ['\n']))

/-- A line-comment body that re-parses as the same comment: free of line
terminators and not starting like a block-comment opener. -/
abbrev goodBody (b : Str) : Prop :=
  ('\n' ∉ b) ∧ ('\r' ∉ b) ∧ b.head? ≠ some '*' ∧ b.head? ≠ some '\\'

/-- Comment bodies whose last entry is an encoding marker. -/
def encodingBodies : List Str :=
  ["Problem name: diet".toList, " ENCODING=ISO-8859-1".toList]

theorem scanIdx_eq_some {p : Nat → Bool} :
    ∀ {fuel i j : Nat}, scanIdx p i fuel = some j →
      p j = true ∧ i ≤ j ∧ ∀ k, i ≤ k → k < j → p k = false := by
  intro fuel
  induction fuel with
  | zero => intro i j h; simp [scanIdx] at h
  | succ f ih =>
    intro i j h
    rw [scanIdx] at h
    by_cases hp : p i = true
    · rw [if_pos hp] at h
      injection h with h
      subst h
      exact ⟨hp, Nat.le_refl _, fun k hk1 hk2 => absurd (Nat.lt_of_le_of_lt hk1 hk2) (Nat.lt_irrefl _)⟩
    · rw [if_neg hp] at h
      obtain ⟨h1, h2, h3⟩ := ih h
      refine ⟨h1, by omega, fun k hk1 hk2 => ?_⟩
      rcases Nat.eq_or_lt_of_le hk1 with he | hl
      · rw [← he]; exact Bool.not_eq_true _ |>.mp hp
      · exact h3 k hl hk2

theorem tag_no_case_of_lower (t input : Str) (ht : lower t = t)
    (h : lower (input.take t.length) = t) :
    tag_no_case t input = some (input.drop t.length, input.take t.length) := by
  unfold tag_no_case
  rw [ht, if_pos h]

theorem keyList_varsFromNames (ns : List Str) : keyList (varsFromNames ns) = ns := by
  induction ns with
  | nil => rfl
  | cons n t ih =>
    show n :: keyList (varsFromNames t) = n :: t
    rw [ih]

theorem parse_objectives_inv (s : Str) (r : StrMap Objective × StrMap Variable)
    (h : parse_objectives s = some r) :
    r.2 = varsFromNames (objectiveVarNames r.1) := by
  unfold parse_objectives at h
  split at h
  · exact absurd h (by simp)
  · split at h
    · exact absurd h (by simp)
    · split at h
      · exact absurd h (by simp)
      · injection h with h
        subst h
        rfl

theorem parse_constraints_inv (s : Str) (r : Str × (StrMap Constraint × StrMap Variable))
    (h : parse_constraints s = some r) :
    r.2.2 = varsFromNames (constraintVarNames r.2.1) := by
  unfold parse_constraints at h
  split at h
  all_goals
    try simp only [] at h
    split at h
    · exact absurd h (by simp)
    · split at h
      · exact absurd h (by simp)
      · split at h
        · exact absurd h (by simp)
        · injection h with h
          subst h
          rfl

/-- C4 (corrected, counterexample): take_until_parser does not split at
the earliest position across the keyword list.  With keywords bb then a
and input abb, the keyword a matches at position 0, so the claimed
earliest-position split is before empty and remainder abb — as the
spec-literal definition computes — but the code splits at position 1
where the first-listed keyword bb matches. -/
theorem take_until_tags_ignores_earlier_position :
    take_until_tags ["bb".toList, "a".toList] "abb".toList = some ("bb".toList, "a".toList) ∧
      spec_take_until_any_keyword ["bb".toList, "a".toList] "abb".toList
        = some ("abb".toList, []) := by
  decide

/-- C4 (corrected, amended): take_until_parser tries the keywords in list
order and returns the split at the earliest occurrence of the first
keyword that occurs at all; whenever the first-listed keyword occurs, the
positions of all later-listed keywords are ignored.  The split is at that
keyword's earliest case-insensitive occurrence: the match starts exactly
at the end of the before-part and no earlier position matches it. -/
theorem take_until_tags_first_listed_wins (t : Str) (ts : List Str) (input rem before : Str)
    (h : take_until_cased t input = some (rem, before)) :
    take_until_tags (t :: ts) input = some (rem, before) ∧
      before ++ rem = input ∧
      matchTagAt t input before.length = true ∧
      ∀ k, k < before.length → matchTagAt t input k = false := by
  have h0 := h
  unfold take_until_cased at h
  by_cases hl : input.length < t.length
  · rw [if_pos hl] at h; simp at h
  · rw [if_neg hl] at h
    cases hf : findCasedIdx t input with
    | none => rw [hf] at h; simp at h
    | some i =>
      rw [hf] at h
      injection h with h
      have hrem : input.drop i = rem := congrArg Prod.fst h
      have hbef : input.take i = before := congrArg Prod.snd h
      unfold findCasedIdx at hf
      obtain ⟨hpi, _, hmin⟩ := scanIdx_eq_some hf
      have hile : i ≤ input.length := by
        have := (Bool.and_eq_true _ _).mp hpi |>.1
        have := of_decide_eq_true this
        omega
      have hlen : before.length = i := by
        rw [← hbef, List.length_take]
        omega
      refine ⟨?_, ?_, ?_, ?_⟩
      · unfold take_until_tags
        rw [h0]
      · rw [← hrem, ← hbef, List.take_append_drop]
      · rw [hlen]; exact hpi
      · intro k hk
        rw [hlen] at hk
        exact hmin k (Nat.zero_le _) hk

/-- C4 (witness): applying the first-listed-wins theorem to the keyword
list b then a on input cba, where b first occurs at position 1. -/
theorem take_until_tags_first_listed_wins_w :
    take_until_tags ["b".toList, "a".toList] "cba".toList = some ("ba".toList, "c".toList) :=
  (take_until_tags_first_listed_wins "b".toList ["a".toList] "cba".toList
    "ba".toList "c".toList (by decide)).1

/-- C7 (confirmed): the section recognizers try the longer spelling first,
so an input beginning case-insensitively with generals has all eight
characters consumed by is_generals_section, and an input beginning with
binaries has all eight consumed by is_binary_section. -/
theorem longer_spellings_take_precedence :
    (∀ input : Str, lower (input.take 8) = "generals".toList →
        is_generals_section input = some (input.drop 8, input.take 8)) ∧
      (∀ input : Str, lower (input.take 8) = "binaries".toList →
        is_binary_section input = some (input.drop 8, input.take 8)) := by
  constructor
  · intro input h
    unfold is_generals_section
    rw [tag_no_case_of_lower "generals".toList input (by decide) h]
    rfl
  · intro input h
    unfold is_binary_section
    rw [tag_no_case_of_lower "binaries".toList input (by decide) h]
    rfl

/-- C7 (witness): the precedence theorem applied to concrete inputs that
extend the long spellings. -/
theorem longer_spellings_take_precedence_w :
    is_generals_section "GENERALSxyz".toList = some ("xyz".toList, "GENERALS".toList) ∧
      is_binary_section "Binaries b".toList = some (" b".toList, "Binaries".toList) :=
  ⟨longer_spellings_take_precedence.1 "GENERALSxyz".toList (by decide),
    longer_spellings_take_precedence.2 "Binaries b".toList (by decide)⟩

/-- C8 (corrected, counterexample): header matching does not consume an
immediate colon.  On the input bounds-colon, is_bounds_section leaves a
remainder that starts with the colon, contradicting the claim that the
colon is consumed. -/
theorem bounds_header_keeps_colon :
    is_bounds_section "bounds:".toList = some ([':'], "bounds".toList) ∧
      ([':'] : Str).head? = some ':' := by
  decide

/-- C8 (corrected, amended): the section recognizers consume exactly the
header word: for any input beginning case-insensitively with the bounds or
sos spelling, the remainder is the input with only the word dropped, so
trailing whitespace and any immediate colon stay in the remainder. -/
theorem section_recognizers_word_only :
    (∀ input : Str, lower (input.take 6) = "bounds".toList →
        is_bounds_section input = some (input.drop 6, input.take 6)) ∧
      (∀ input : Str, lower (input.take 3) = "sos".toList →
        is_sos_section input = some (input.drop 3, input.take 3)) := by
  constructor
  · intro input h
    unfold is_bounds_section
    rw [tag_no_case_of_lower "bounds".toList input (by decide) h]
    rfl
  · intro input h
    unfold is_sos_section
    rw [tag_no_case_of_lower "sos".toList input (by decide) h]
    rfl

/-- C8 (witness): the word-only theorem applied to inputs carrying an
immediate colon and a newline after the header word. -/
theorem section_recognizers_word_only_w :
    is_bounds_section "bounds: x".toList = some (": x".toList, "bounds".toList) ∧
      is_sos_section "sos\ns1".toList = some ("\ns1".toList, "sos".toList) :=
  ⟨section_recognizers_word_only.1 "bounds: x".toList (by decide),
    section_recognizers_word_only.2 "sos\ns1".toList (by decide)⟩

theorem tagP_open1_none (rest : Str) (h : rest.take 2 ≠ ['\\', '*']) :
    tagP "\\\\*".toList ('\\' :: rest) = none := by
  unfold tagP
  rw [if_neg]
  intro hc
  have hc2 : '\\' :: rest.take 2 = ['\\', '\\', '*'] := hc
  injection hc2 with _ hc3
  exact h hc3

theorem tagP_open2_none (rest : Str) (h : rest.head? ≠ some '*') :
    tagP "\\*".toList ('\\' :: rest) = none := by
  unfold tagP
  rw [if_neg]
  intro hc
  have hc2 : '\\' :: rest.take 1 = ['\\', '*'] := hc
  injection hc2 with _ hc3
  cases rest with
  | nil => exact absurd hc3 (by decide)
  | cons c t =>
    have hc4 : c :: t.take 0 = ['*'] := hc3
    injection hc4 with hc5 _
    exact h (by rw [show (c :: t).head? = some c from rfl, hc5])

theorem tagP_open3 (rest : Str) : tagP "\\".toList ('\\' :: rest) = some (rest, "\\".toList) := rfl

theorem notLineEnding_all (b : Str) (h1 : '\n' ∉ b) (h2 : '\r' ∉ b) :
    notLineEnding b = some ([], b) := by
  induction b with
  | nil => rfl
  | cons c t ih =>
    have hc1 : ¬(c = '\n') := fun he => h1 (by rw [he]; exact List.mem_cons_self _ _)
    have hc2 : ¬(c = '\r') := fun he => h2 (by rw [he]; exact List.mem_cons_self _ _)
    unfold notLineEnding
    rw [if_neg hc1, if_neg hc2,
      ih (fun hm => h1 (List.mem_cons_of_mem c hm)) (fun hm => h2 (List.mem_cons_of_mem c hm))]
    rfl

theorem notLineEnding_upto (b t : Str) (h1 : '\n' ∉ b) (h2 : '\r' ∉ b) :
    notLineEnding (b ++ '\n' :: t) = some ('\n' :: t, b) := by
  induction b with
  | nil => rfl
  | cons c b' ih =>
    have hc1 : ¬(c = '\n') := fun he => h1 (by rw [he]; exact List.mem_cons_self _ _)
    have hc2 : ¬(c = '\r') := fun he => h2 (by rw [he]; exact List.mem_cons_self _ _)
    show notLineEnding (c :: (b' ++ '\n' :: t)) = some ('\n' :: t, c :: b')
    unfold notLineEnding
    rw [if_neg hc1, if_neg hc2,
      ih (fun hm => h1 (List.mem_cons_of_mem c hm)) (fun hm => h2 (List.mem_cons_of_mem c hm))]
    rfl

theorem psc_line_eval (rest : Str) (h3 : rest.head? ≠ some '*') (h4 : rest.take 2 ≠ ['\\', '*']) :
    parse_single_comment ('\\' :: rest) =
      (match notLineEnding rest with
       | none => none
       | some r2 =>
         match lineEnding r2.1 with
         | none => none
         | some r3 => some (r3.1, r2.2)) := by
  unfold parse_single_comment
  rw [tagP_open1_none rest h4, tagP_open2_none rest h3, tagP_open3 rest]

theorem parse_comments_of_fail (input : Str) (h : parse_single_comment input = none) :
    parse_comments input = (input, none) := by
  unfold parse_comments many0Comments
  rw [h]
  rfl

theorem parse_single_line (b t : Str) (hb : goodBody b) :
    parse_single_comment ('\\' :: (b ++ '\n' :: t)) = some (t, b) := by
  obtain ⟨hb1, hb2, hb3, hb4⟩ := hb
  have h3 : (b ++ '\n' :: t).head? ≠ some '*' := by
    cases b with
    | nil => intro hc; exact absurd (Option.some.inj hc) (by decide)
    | cons c b' => exact hb3
  have h4 : (b ++ '\n' :: t).take 2 ≠ ['\\', '*'] := by
    cases b with
    | nil =>
      intro hc
      have hc2 : '\n' :: t.take 1 = ['\\', '*'] := hc
      injection hc2 with ha _
      exact absurd ha (by decide)
    | cons c b' =>
      intro hc
      have hc2 : c :: (b' ++ '\n' :: t).take 1 = ['\\', '*'] := hc
      injection hc2 with ha _
      exact hb4 (by rw [show (c :: b').head? = some c from rfl, ha])
  rw [psc_line_eval (b ++ '\n' :: t) h3 h4, notLineEnding_upto b t hb1 hb2]
  rfl

theorem many0Comments_render (bs : List Str) (h : ∀ b ∈ bs, goodBody b) :
    ∀ fuel, (renderLineComments bs).length + 1 ≤ fuel →
      many0Comments fuel (renderLineComments bs) = ([], bs) := by
  revert h
  induction bs with
  | nil =>
    intro _ fuel hf
    cases fuel with
    | zero => omega
    | succ f => rfl
  | cons b bs' ih =>
    intro h fuel hf
    have hrb : renderLineComments (b :: bs') = '\\' :: (b ++ '\n' :: renderLineComments bs') := by
      simp [renderLineComments]
    have hlen : (renderLineComments (b :: bs')).length
        = b.length + 2 + (renderLineComments bs').length := by
      rw [hrb]
      simp
      omega
    cases fuel with
    | zero => omega
    | succ f =>
      have hf' : (renderLineComments bs').length + 1 ≤ f := by
        rw [hlen] at hf
        omega
      rw [hrb]
      unfold many0Comments
      rw [parse_single_line b (renderLineComments bs') (h b (List.mem_cons_self b bs'))]
      show ((many0Comments f (renderLineComments bs')).1,
        b :: (many0Comments f (renderLineComments bs')).2) = ([], b :: bs')
      rw [ih (fun x hx => h x (List.mem_cons_of_mem b hx)) f hf']

/-- C3 (corrected, counterexample): the extracted problem name is the raw
body of the last comment, with no problem-name-hint heuristic and no
whitespace stripping: on an input whose final comment is an encoding
marker, parse_problem_name returns that encoding comment, leading blank
included, contradicting the claim that an ENCODING comment is never
returned. -/
theorem encoding_comment_returned_as_name :
    parse_problem_name "\\Problem name: diet\n\\ ENCODING=ISO-8859-1\n".toList
      = ([], some " ENCODING=ISO-8859-1".toList) := by
  decide

/-- C3 (corrected, amended): the problem name is the body of the last
comment, verbatim: for any sequence of line comments (bodies free of line
terminators and not opening like a block comment), the comment scanner
consumes them all and returns exactly the last body — whether or not it is
empty, an ENCODING marker, or padded with whitespace — and returns none
exactly when there are no comments. -/
theorem problem_name_is_last_comment (bs : List Str) (h : ∀ b ∈ bs, goodBody b) :
    parse_problem_name (renderLineComments bs) = ([], bs.getLast?) ∧
      parse_comments (renderLineComments bs) = ([], bs.getLast?) := by
  have hc : parse_comments (renderLineComments bs) = ([], bs.getLast?) := by
    unfold parse_comments
    rw [many0Comments_render bs h ((renderLineComments bs).length + 1) (Nat.le_refl _)]
  exact ⟨hc, hc⟩

/-- C3 (witness): the last-comment theorem applied to a comment list whose
final body is a whitespace-padded ENCODING marker. -/
theorem problem_name_is_last_comment_w :
    parse_problem_name (renderLineComments encodingBodies) = ([], encodingBodies.getLast?) :=
  (problem_name_is_last_comment encodingBodies (by decide)).1

/-- C5 (corrected, counterexample): on concrete scenario 6 of the spec (an
unterminated block comment at offset 0), parsing does not fail with an
UnterminatedComment error at the opener: the comment scanner succeeds,
consuming nothing and yielding no name — no unterminated-comment error
kind exists anywhere in the source — and the conversion then fails at the
sense parser with the generic failure. -/
theorem unterminated_comment_scanner_succeeds :
    parse_comments scenarioSix = (scenarioSix, none) ∧
      tryFrom scenarioSix = Except.error TFErr.failed :=
  ⟨by decide, rfl⟩

/-- C5 (corrected, amended): a block comment whose terminator never occurs
in the rest of the input makes parse_single_comment fail with the generic
nom error, and the comment run parser then succeeds while consuming
nothing and producing no name — for both block-comment openers. -/
theorem unterminated_block_comment_silently_skipped (rest : Str)
    (h : takeUntilExact "*\\".toList rest = none) :
    parse_single_comment ('\\' :: '*' :: rest) = none ∧
      parse_comments ('\\' :: '*' :: rest) = ('\\' :: '*' :: rest, none) ∧
      parse_single_comment ('\\' :: '\\' :: '*' :: rest) = none ∧
      parse_comments ('\\' :: '\\' :: '*' :: rest) = ('\\' :: '\\' :: '*' :: rest, none) := by
  have e1 : parse_single_comment ('\\' :: '*' :: rest) = none := by
    show parse_block_rest rest = none
    unfold parse_block_rest
    rw [h]
  have e2 : parse_single_comment ('\\' :: '\\' :: '*' :: rest) = none := by
    show parse_block_rest rest = none
    unfold parse_block_rest
    rw [h]
  exact ⟨e1, parse_comments_of_fail _ e1, e2, parse_comments_of_fail _ e2⟩

/-- C5 (witness): the silent-skip theorem applied to the unterminated
body of scenario 6. -/
theorem unterminated_block_comment_silently_skipped_w :
    parse_single_comment ('\\' :: '*' :: " oops".toList) = none ∧
      parse_comments ('\\' :: '*' :: " oops".toList) = ('\\' :: '*' :: " oops".toList, none) ∧
      parse_single_comment ('\\' :: '\\' :: '*' :: " oops".toList) = none ∧
      parse_comments ('\\' :: '\\' :: '*' :: " oops".toList)
        = ('\\' :: '\\' :: '*' :: " oops".toList, none) :=
  unterminated_block_comment_silently_skipped " oops".toList (by decide)

/-- C10 (confirmed): a line-form comment is recognized only when
terminated by a line ending.  For any input that starts with a lone
backslash (not a block opener) and whose remainder contains no line
terminator, parse_single_comment fails, and parse_comments as well as
parse_problem_name succeed while consuming nothing and returning no
name. -/
theorem line_comment_requires_line_ending (rest : Str) (h1 : '\n' ∉ rest) (h2 : '\r' ∉ rest)
    (h3 : rest.head? ≠ some '*') (h4 : rest.take 2 ≠ ['\\', '*']) :
    parse_single_comment ('\\' :: rest) = none ∧
      parse_comments ('\\' :: rest) = ('\\' :: rest, none) ∧
      parse_problem_name ('\\' :: rest) = ('\\' :: rest, none) := by
  have e1 : parse_single_comment ('\\' :: rest) = none := by
    rw [psc_line_eval rest h3 h4, notLineEnding_all rest h1 h2]
    rfl
  have e2 := parse_comments_of_fail _ e1
  exact ⟨e1, e2, e2⟩

/-- C10 (witness): the line-ending theorem applied to a line comment that
reaches the end of the input with no newline. -/
theorem line_comment_requires_line_ending_w :
    parse_single_comment ('\\' :: " hello".toList) = none ∧
      parse_comments ('\\' :: " hello".toList) = ('\\' :: " hello".toList, none) ∧
      parse_problem_name ('\\' :: " hello".toList) = ('\\' :: " hello".toList, none) :=
  line_comment_requires_line_ending " hello".toList (by decide) (by decide) (by decide) (by decide)

theorem mem_keyList_extend (a b : StrMap Variable) (n : Str) :
    n ∈ keyList (extendMap a b) ↔ n ∈ keyList b ∨ n ∈ keyList a := by
  unfold extendMap keyList
  rw [List.map_append, List.mem_append]

/-- C1 (corrected, counterexample): the variables map does not cover
typed-variable sections.  cexGenerals declares z in its generals section;
the conversion succeeds, yet the variable keys are exactly the x mentioned
by the objective and the constraint — z is absent, contradicting the
claimed union over typed-variable sections. -/
theorem typed_section_variable_not_registered :
    exOk (tryFrom cexGenerals) = true ∧
      (tryFrom cexGenerals).toOption.map (fun p => keyList p.vars)
        = some ["x".toList, "x".toList] ∧
      (tryFrom cexGenerals).toOption.map (fun p => decide ("z".toList ∈ keyList p.vars))
        = some false := by
  decide

/-- C1 (corrected, amended): for every successful conversion, the
variables map contains exactly the union of the variable names appearing
in the objectives and in the constraints (indicator variables and inner
constraints included) — and nothing else: bounds, typed-variable and SOS
sections are never parsed by try_from, so their names are not added. -/
theorem vars_exactly_objective_and_constraint_mentions (input : Str) (p : LPProblem)
    (h : tryFrom input = Except.ok p) (n : Str) :
    n ∈ keyList p.vars ↔
      n ∈ objectiveVarNames p.objectives ∨ n ∈ constraintVarNames p.constraints := by
  unfold tryFrom at h
  try simp only [] at h
  cases h1 : parse_sense (parse_comments input).1 with
  | none => rw [h1] at h; exact absurd h (by simp)
  | some sr =>
    rw [h1] at h
    try simp only [] at h
    cases h2 : objSectionSplit sr.1 with
    | error e => rw [h2] at h; exact absurd h (by simp)
    | ok v =>
      rw [h2] at h
      try simp only [] at h
      cases v with
      | none => exact absurd h (by simp)
      | some sp =>
        try simp only [] at h
        cases h3 : parse_constraint_header sp.1 with
        | none => rw [h3] at h; exact absurd h (by simp)
        | some hr =>
          rw [h3] at h
          try simp only [] at h
          cases h4 : parse_objectives sp.2 with
          | none => rw [h4] at h; exact absurd h (by simp)
          | some objr =>
            rw [h4] at h
            try simp only [] at h
            cases h5 : parse_constraints hr.1 with
            | none => rw [h5] at h; exact absurd h (by simp)
            | some conr =>
              rw [h5] at h
              try simp only [] at h
              injection h with h
              subst h
              have ho := parse_objectives_inv sp.2 objr h4
              have hc := parse_constraints_inv hr.1 conr h5
              show n ∈ keyList (extendMap objr.2 conr.2.2) ↔
                n ∈ objectiveVarNames objr.1 ∨ n ∈ constraintVarNames conr.2.1
              rw [mem_keyList_extend, ho, hc, keyList_varsFromNames, keyList_varsFromNames]
              exact Or.comm

/-- C1 (witness): the exact-mentions theorem applied to the successful
parse of cexNoEnd at the variable name x. -/
theorem vars_exactly_objective_and_constraint_mentions_w :
    "x".toList ∈ keyList pNoEnd.vars ↔
      "x".toList ∈ objectiveVarNames pNoEnd.objectives ∨
        "x".toList ∈ constraintVarNames pNoEnd.constraints :=
  vars_exactly_objective_and_constraint_mentions cexNoEnd pNoEnd rfl "x".toList

/-- C2 (corrected, counterexample): an input in which no end marker occurs
anywhere — take_until_cased cannot find end in cexNoEnd even
case-insensitively — is still converted successfully, contradicting the
claim that the parse cannot succeed without the end marker. -/
theorem parse_succeeds_without_end_marker :
    take_until_cased "end".toList cexNoEnd = none ∧ exOk (tryFrom cexNoEnd) = true := by
  decide

/-- C2 (corrected, amended): try_from never checks for an end marker: it
stops after assembling objectives and constraints, so the end-free input
cexNoEnd yields a fully assembled problem with its sense, its one
objective, its one constraint and its variables — the repository's own
SMALL_INPUT test exercises the same end-free behaviour. -/
theorem tryFrom_requires_no_end_marker :
    tryFrom cexNoEnd = Except.ok pNoEnd ∧
      pNoEnd.sense = Sense.Minimize ∧
      keyList pNoEnd.objectives = ["obj".toList] ∧
      keyList pNoEnd.constraints = ["c1".toList] ∧
      keyList pNoEnd.vars = ["x".toList, "y".toList, "x".toList, "y".toList] :=
  ⟨rfl, by decide, by decide, by decide, by decide⟩

/-- C6 (corrected, counterexample): the bare st spelling is not accepted.
inStBare is identical to the accepted inStColon input except that its
constraint header is st without a colon; the conversion fails on it,
because the section-locating alternative in try_from searches only for
subject to, such that, s.t. and st-colon — the fifth spelling of
CONSTRAINT_HEADERS is never searched. -/
theorem bare_st_spelling_not_accepted :
    exOk (tryFrom inStColon) = true ∧ exOk (tryFrom inStBare) = false := by
  decide

/-- C6 (corrected, amended): of the five constraint-header spellings,
the four that try_from searches — subject to (case-insensitively), such
that, s.t. and st-colon — each make the otherwise-identical input parse
successfully. -/
theorem four_constraint_spellings_accepted :
    exOk (tryFrom inSubjUpper) = true ∧ exOk (tryFrom inSuchThat) = true ∧
      exOk (tryFrom inSDotT) = true ∧ exOk (tryFrom inStColon) = true := by
  decide

/-- C9 (code_bug): LPProblem::try_from is not total.  On the input
consisting of the bare sense keyword, the remainder after the sense is
empty, and take_until_no_case subtracts the tag length from the character
count with no guard — the subtraction underflows (debug) or the window
slice runs out of bounds (release), so the conversion aborts instead of
returning Ok or Err; its sibling take_until_cased carries exactly the
missing length guard. -/
theorem tryFrom_panics_on_bare_sense :
    tryFrom "minimize".toList = Except.error TFErr.panicked ∧
      take_until_no_case "subject to".toList [] = Except.error () :=
  ⟨rfl, rfl⟩

end LP
